import Mathlib

/-!
# Zenith Wallet — ledger and settlement engine, shallowly embedded

A shallow embedding of the money-handling core of the Zenith Wallet backend
(`src/backend/src/models/Transaction.js`, `Group.js`,
`src/backend/src/routes/payments.js`, `transactions.js`), together with
theorems settling the specification claims about it.

Modelling conventions:

* JavaScript `Number` amounts are modelled as exact rationals (`ℚ`).  The
  source performs ordinary JS arithmetic on amounts (`totalAmount /
  participantCount`, `balance += amount`, …); the rational model gives those
  expressions their exact field meaning.
* MongoDB ObjectIds are modelled as `Nat`.
* Wallet balances (`User.walletBalance`) are a function `Nat → ℚ` from user
  id to balance.
* `async` database calls can throw; a call sequence is modelled with an
  explicit failure-injection argument (`failAt : Option Nat`) naming the
  first operation of the sequence that throws, `none` meaning none does.
* Timestamps (`Date` values) are modelled as `Bool` flags recording whether
  the field was stamped.
* Fields that no claim touches (descriptions, receipts, metadata, fees,
  recurring schedules, notifications, …) are omitted from the records.
-/

namespace Zenith

/-- JavaScript `Math.abs` on the rational model of `Number`. -/
def jsAbs (q : ℚ) : ℚ := if q < 0 then -q else q

theorem jsAbs_eq_abs (q : ℚ) : jsAbs q = |q| := by
  by_cases h : q < 0
  · simp [jsAbs, h, abs_of_neg h]
  · simp [jsAbs, h, abs_of_nonneg (le_of_not_lt h)]

/-! ## Expense model and the split calculator

From `src/backend/src/models/Transaction.js` (`expenseSchema`), lines
349–380 (schema), 486–525 (`calculateSplits`), 528–537 (`validateSplits`)
and 540–550 (the `pre('save')` hook).
-/

/-- The `expenseSchema.splitType` enum: `['equal', 'percentage', 'custom', 'shares']`. -/
inductive SplitType
  | equal
  | percentage
  | custom
  | shares
deriving DecidableEq

/-- One entry of `expenseSchema.participants`.  `settledAt` is `true` when
the `Date` field has been stamped. -/
structure Participant where
  user : Nat
  amount : ℚ
  percentage : ℚ := 0
  shares : ℚ := 1
  settled : Bool := false
  settledAt : Bool := false
deriving DecidableEq

/-- One entry of `expenseSchema.settlement.settlements`. -/
structure SettlementRecord where
  fromUser : Nat
  toUser : Nat
  amount : ℚ
deriving DecidableEq

/-- The expense document (fields the claims touch). -/
structure Expense where
  amount : ℚ
  paidBy : Nat
  splitType : SplitType := .equal
  participants : List Participant
  settlementRecords : List SettlementRecord := []
  isSettled : Bool := false
  statusSettled : Bool := false
deriving DecidableEq

/-- Method `expenseSchema.methods.calculateSplits` (Transaction.js 486–525).

Each branch is the source arithmetic verbatim on the rational model:
`equal` assigns `totalAmount / participantCount` to every participant,
`percentage` assigns `totalAmount * percentage / 100`, `shares` assigns
`totalAmount * shares / totalShares`, and `custom` leaves amounts alone and
derives display percentages.  (With an empty participant list the source
divides by zero, producing `Infinity`; in the rational model `x / 0 = 0`.
Every claim constrains the participant count to be at least 1.) -/
def calculateSplits (e : Expense) : Expense :=
  let totalAmount := e.amount
  let participantCount : ℚ := e.participants.length
  match e.splitType with
  | .equal =>
      let equalAmount := totalAmount / participantCount
      { e with participants := e.participants.map fun p =>
          { p with amount := equalAmount, percentage := 100 / participantCount } }
  | .percentage =>
      { e with participants := e.participants.map fun p =>
          { p with amount := totalAmount * p.percentage / 100 } }
  | .shares =>
      let totalShares := (e.participants.map (·.shares)).sum
      { e with participants := e.participants.map fun p =>
          { p with amount := totalAmount * p.shares / totalShares,
                   percentage := p.shares / totalShares * 100 } }
  | .custom =>
      { e with participants := e.participants.map fun p =>
          { p with percentage := p.amount / totalAmount * 100 } }

/-- The total `participants.reduce((sum, p) => sum + p.amount, 0)` (Transaction.js 529). -/
def splitSum (e : Expense) : ℚ := (e.participants.map (·.amount)).sum

/-- Method `expenseSchema.methods.validateSplits` (Transaction.js 528–537): succeeds
(returns `true`) unless `Math.abs(totalSplitAmount - this.amount)` exceeds
the `tolerance` of `0.01` — the source comment reads "Allow 1 cent tolerance
for rounding". -/
def validateSplits (e : Expense) : Bool :=
  decide (jsAbs (splitSum e - e.amount) ≤ 1/100)

/-- The `pre('save')` hook (Transaction.js 540–550) on a save that modified
`amount`, `participants` or `splitType`: recalculate the splits, then
validate; a validation error rejects the save (`none`). -/
def saveExpense (e : Expense) : Option Expense :=
  let recalculated := calculateSplits e
  if validateSplits recalculated then some recalculated else none

/-! ## Transaction model and state machine

From `src/backend/src/models/Transaction.js` (`transactionSchema`), lines
3–209 (schema), 233–283 (`process`), 286–296 (`retry`); and the routes in
`src/backend/src/routes/transactions.js` and `payments.js`.
-/

/-- The `transactionSchema.type` enum (Transaction.js 4–8). -/
inductive TxType
  | income
  | expense
  | transfer
  | settlement
  | refund
deriving DecidableEq

/-- The `transactionSchema.status` enum (Transaction.js 96–100). -/
inductive TxStatus
  | pending
  | processing
  | completed
  | failed
  | cancelled
  | refunded
deriving DecidableEq

/-- The transaction document (fields the claims touch).  The
`…BalanceBefore/After` fields are the snapshots recorded at creation time by
the routes; `processedAt` is `true` once the completion timestamp is
stamped. -/
structure Tx where
  type : TxType
  amount : ℚ
  fromUser : Nat
  toUser : Option Nat := none
  fromBalanceBefore : ℚ := 0
  fromBalanceAfter : ℚ := 0
  toBalanceBefore : ℚ := 0
  toBalanceAfter : ℚ := 0
  status : TxStatus := .pending
  retryCount : Nat := 0
  maxRetries : Nat := 3
  processedAt : Bool := false
deriving DecidableEq

/-- The wallet-balance updates `process` issues (Transaction.js 245–269):
`transfer` with a recipient decrements the sender and increments the
receiver (two separate `findByIdAndUpdate` calls, in that order), `expense`
decrements the sender, `income` increments the sender, and every other type
(`settlement`, `refund`, recipient-less `transfer`) updates no balance. -/
def walletUpdates (t : Tx) : List (Nat × ℚ) :=
  match t.type, t.toUser with
  | .transfer, some u => [(t.fromUser, -t.amount), (u, t.amount)]
  | .expense, _ => [(t.fromUser, -t.amount)]
  | .income, _ => [(t.fromUser, t.amount)]
  | _, _ => []

/-- Apply a list of `$inc: { walletBalance: delta }` updates in order. -/
def applyUpdates (ups : List (Nat × ℚ)) (st : Nat → ℚ) : Nat → ℚ :=
  ups.foldl (fun s p u => if u = p.1 then s u + p.2 else s u) st

/-- Result of running `process` (or a route calling it): the saved
transaction, the wallet balances, and whether the call returned normally
(`ok = false` means it threw after the `catch` block ran). -/
structure ProcResult where
  tx : Tx
  balances : Nat → ℚ
  ok : Bool

/-- Method `transactionSchema.methods.process` (Transaction.js 233–283) with
failure injection.  The balance updates of `walletUpdates` run in order;
`failAt = some k` means the `k`-th one throws (so updates `0..k-1` have
already been applied — there is no rollback), after which the `catch` block
sets `status = 'failed'`, increments `retryCount` and rethrows.  `failAt =
none` is a run in which no call throws: all updates apply, `status =
'completed'` and `processedAt` is stamped. -/
def process (t : Tx) (st : Nat → ℚ) (failAt : Option Nat) : ProcResult :=
  match failAt with
  | none =>
      { tx := { t with status := .completed, processedAt := true },
        balances := applyUpdates (walletUpdates t) st,
        ok := true }
  | some k =>
      { tx := { t with status := .failed, retryCount := t.retryCount + 1 },
        balances := applyUpdates ((walletUpdates t).take k) st,
        ok := false }

/-- Errors thrown by `retry` (Transaction.js 287–293). -/
inductive RetryError
  | retryLimitExceeded
  | notFailed
deriving DecidableEq

/-- Method `transactionSchema.methods.retry` (Transaction.js 286–296): throws when
`retryCount >= maxRetries`, then when `status !== 'failed'`; otherwise it
re-runs `process`. -/
def retry (t : Tx) (st : Nat → ℚ) (failAt : Option Nat) :
    Except RetryError ProcResult :=
  if t.retryCount ≥ t.maxRetries then .error .retryLimitExceeded
  else if t.status ≠ .failed then .error .notFailed
  else .ok (process t st failAt)

/-- Responses of the transaction routes (the claims only distinguish these). -/
inductive RouteResp
  | forbidden
  | wrongStatus
  | retryLimit
  | ok
  | processFailed
deriving DecidableEq

/-- Result of a transaction route call: HTTP-level outcome, the transaction
as stored afterwards, and the wallet balances afterwards. -/
structure RouteResult where
  resp : RouteResp
  tx : Tx
  balances : Nat → ℚ

/-- Route `POST /api/transactions/:transactionId/retry` (transactions.js 257–321):
rejects a caller other than `from.user` (403), then a status other than
`failed`, then `retryCount >= maxRetries`; only then calls
`transaction.retry()` inside a try/catch (a processing failure yields a 400
with the transaction left as `process`'s catch block saved it).  After the
route's own guards `retry`'s two throws cannot fire. -/
def retryRoute (t : Tx) (caller : Nat) (st : Nat → ℚ) (failAt : Option Nat) :
    RouteResult :=
  if caller ≠ t.fromUser then ⟨.forbidden, t, st⟩
  else if t.status ≠ .failed then ⟨.wrongStatus, t, st⟩
  else if t.retryCount ≥ t.maxRetries then ⟨.retryLimit, t, st⟩
  else
    match retry t st failAt with
    | .ok r => ⟨if r.ok then .ok else .processFailed, r.tx, r.balances⟩
    | .error _ => ⟨.retryLimit, t, st⟩

/-- Route `POST /api/transactions/:transactionId/cancel` (transactions.js
326–373): rejects a caller other than `from.user` (403), then any status
outside `pending`/`processing`; otherwise sets `status = 'cancelled'`.  No
balance is touched. -/
def cancelRoute (t : Tx) (caller : Nat) (st : Nat → ℚ) : RouteResult :=
  if caller ≠ t.fromUser then ⟨.forbidden, t, st⟩
  else if t.status = .pending ∨ t.status = .processing then
    ⟨.ok, { t with status := .cancelled }, st⟩
  else ⟨.wrongStatus, t, st⟩

/-- Outcomes of `POST /api/payments/send-money` and `POST
/api/transactions` that the claims distinguish. -/
inductive SendOutcome
  | recipientNotFound
  | selfTransfer
  | insufficientBalance
  | completedOk
  | processingFailed
deriving DecidableEq

/-- Result of a money-creating route: outcome, the transactions persisted by
the call, and the wallet balances afterwards. -/
structure SendResult where
  outcome : SendOutcome
  txs : List Tx
  balances : Nat → ℚ

/-- Route `POST /api/payments/send-money` (payments.js 53–155): validates the
recipient, rejects self-transfers, rejects `sender.walletBalance < amount`
with the insufficient-balance 400 — all before any transaction is created —
then builds the `transfer` transaction with balance snapshots, saves it and
calls `process` (whose failure is caught and reported as a 400). -/
def sendMoney (senderId recipientId : Nat) (amount : ℚ)
    (recipientExists : Bool) (st : Nat → ℚ) (failAt : Option Nat) :
    SendResult :=
  if recipientExists = false then ⟨.recipientNotFound, [], st⟩
  else if recipientId = senderId then ⟨.selfTransfer, [], st⟩
  else if st senderId < amount then ⟨.insufficientBalance, [], st⟩
  else
    let t : Tx :=
      { type := .transfer, amount := amount,
        fromUser := senderId, toUser := some recipientId,
        fromBalanceBefore := st senderId,
        fromBalanceAfter := st senderId - amount,
        toBalanceBefore := st recipientId,
        toBalanceAfter := st recipientId + amount,
        status := .pending }
    let r := process t st failAt
    ⟨if r.ok then .completedOk else .processingFailed, [r.tx], r.balances⟩

/-- Route `POST /api/transactions` (transactions.js 111–208): rejects
`walletBalance < amount` for outgoing types (`expense`, `transfer`) before
creating anything, then a missing transfer recipient; otherwise builds the
transaction with balance snapshots and processes it (a processing failure
is caught and the transaction is left in its failed state). -/
def createTransaction (caller : Nat) (type : TxType) (amount : ℚ)
    (toUser : Option Nat) (toExists : Bool) (st : Nat → ℚ)
    (failAt : Option Nat) : SendResult :=
  if (type = .expense ∨ type = .transfer) ∧ st caller < amount then
    ⟨.insufficientBalance, [], st⟩
  else if type = .transfer ∧ toUser.isSome ∧ toExists = false then
    ⟨.recipientNotFound, [], st⟩
  else
    let t : Tx :=
      { type := type, amount := amount, fromUser := caller, toUser := toUser,
        fromBalanceBefore := st caller,
        fromBalanceAfter :=
          if type = .income then st caller + amount else st caller - amount,
        toBalanceBefore := match toUser with | some u => st u | none => 0,
        toBalanceAfter := match toUser with | some u => st u + amount | none => 0,
        status := .pending }
    let r := process t st failAt
    ⟨if r.ok then .completedOk else .processingFailed, [r.tx], r.balances⟩

/-! ## Group model, balance recomputation, settlement recording

From `src/backend/src/models/Group.js` (`groupSchema`, lines 44–76 and
103–121; `calculateBalances`, lines 203–246) and the routes in
`src/backend/src/routes/payments.js` (`POST /:groupId/settle`, lines
1646–1701; `GET /:groupId/balances`, lines 1577–1641).
-/

/-- One entry of `groupSchema.members` (fields the claims touch). -/
structure Member where
  user : Nat
  balance : ℚ := 0
  totalPaid : ℚ := 0
  totalOwed : ℚ := 0
deriving DecidableEq

/-- A group expense as read back by `Expense.find({ group: this._id })`
inside `calculateBalances` (amount, payer, participant subdocuments). -/
structure GExpense where
  amount : ℚ
  paidBy : Nat
  participants : List Participant
deriving DecidableEq

/-- The group document (fields the claims touch). -/
structure Group where
  members : List Member
  settlements : List SettlementRecord := []
deriving DecidableEq

/-- Pattern `array.find(pred)` followed by mutating the found element: update the
first element satisfying `p`, leave the rest alone. -/
def updateFirst (p : α → Bool) (f : α → α) : List α → List α
  | [] => []
  | x :: xs => if p x then f x :: xs else x :: updateFirst p f xs

/-- The string `m.user._id.toString()` compares against inside
`calculateBalances`: the hex rendering of the member's user ObjectId,
modelled as the decimal rendering of the `Nat` id. -/
def objectIdString (u : Nat) : String := toString u

/-- The string `participantId.toString()` produces at Group.js 229:
`calculateBalances` iterates `expense.participants.forEach(participantId =>
…)`, but the elements of `participants` are whole subdocuments `{ user,
amount, percentage, … }`, not ids, so `toString` renders the subdocument
(an object rendering such as `{ user: …, amount: … }`), never the bare hex
id string.  Modelled as a brace-wrapped rendering, which no `objectIdString`
(a digit string) ever equals. -/
def participantDocString (p : Participant) : String :=
  "\x7b user: " ++ toString p.user ++ ", amount: " ++ toString p.amount.num ++ " \x7d"

/-- Reset step of `calculateBalances` (Group.js 213–217). -/
def resetMember (m : Member) : Member :=
  { m with totalPaid := 0, totalOwed := 0, balance := 0 }

/-- Replay of a single expense inside `calculateBalances` (Group.js
220–234): credit the payer's `totalPaid` with the full amount (found by id
string), then add `expense.amount / expense.participants.length` to the
`totalOwed` of the member matching each participant — where the match
compares the member's id string against the participant subdocument's
string rendering (see `participantDocString`), so it never succeeds.  The
split ignores `splitType` and the participants' stored amounts. -/
def replayExpense (ms : List Member) (e : GExpense) : List Member :=
  let ms1 := updateFirst
    (fun m => objectIdString m.user == objectIdString e.paidBy)
    (fun m => { m with totalPaid := m.totalPaid + e.amount }) ms
  let splitAmount := e.amount / (e.participants.length : ℚ)
  e.participants.foldl (fun acc p =>
    updateFirst (fun m => objectIdString m.user == participantDocString p)
      (fun m => { m with totalOwed := m.totalOwed + splitAmount }) acc) ms1

/-- Method `groupSchema.methods.calculateBalances` (Group.js 203–246): reset every
member's `totalPaid`/`totalOwed`/`balance`, replay the group's expenses
(and nothing else — recorded settlements are not consulted), then set each
`balance = totalPaid - totalOwed`. -/
def calculateBalances (ms : List Member) (es : List GExpense) : List Member :=
  let ms0 := ms.map resetMember
  let ms1 := es.foldl replayExpense ms0
  ms1.map fun m => { m with balance := m.totalPaid - m.totalOwed }

/-- Route `POST /api/groups/:groupId/settle` (payments.js 1646–1691): reject a
non-positive amount or a non-member party (`none`); otherwise push the
settlement record and apply `fromMember.balance += amount;
toMember.balance -= amount` — and only `balance`: `totalPaid` and
`totalOwed` are not updated. -/
def settleRoute (g : Group) (callerId toUserId : Nat) (amount : ℚ) :
    Option Group :=
  if amount ≤ 0 then none
  else if (g.members.find? (fun m => m.user == callerId)).isNone then none
  else if (g.members.find? (fun m => m.user == toUserId)).isNone then none
  else some
    { members :=
        updateFirst (fun m => m.user == callerId)
          (fun m => { m with balance := m.balance + amount })
          (updateFirst (fun m => m.user == toUserId)
            (fun m => { m with balance := m.balance - amount }) g.members),
      settlements := g.settlements ++ [⟨callerId, toUserId, amount⟩] }

/-! ## Settlement optimizer

`GET /api/groups/:groupId/balances` (payments.js 1577–1631): members with
`Math.abs(balance) > 0.01` are split into creditors (sorted descending by
balance) and debtors (sorted ascending, i.e. most-negative first), then a
two-pointer greedy sweep matches the head creditor against the head debtor,
transferring `Math.min(creditor.balance, Math.abs(debtor.balance))` and
advancing a pointer once the corresponding residue drops below `0.01`.
-/

/-- Stable insertion into an already-sorted list: the new element goes after
every element the comparator keeps before it (`keepBefore y x` = the sort
comparator does not require `x` strictly before `y`).  JS `Array.sort` is
stable, and a stable insertion sort realizes the same ordering. -/
def insertSorted (keepBefore : α → α → Bool) (x : α) : List α → List α
  | [] => [x]
  | y :: ys =>
      if keepBefore y x then y :: insertSorted keepBefore x ys else x :: y :: ys

/-- Stable sort by repeated insertion, processing the input left to right. -/
def sortStable (keepBefore : α → α → Bool) (l : List α) : List α :=
  l.foldl (fun acc x => insertSorted keepBefore x acc) []

/-- One run of the two-pointer greedy sweep (payments.js 1589–1608) over
`(user, balance)` pairs, with explicit iteration fuel.  Each loop turn
matches the head creditor against the head debtor, records the transfer of
`amt = min creditorBalance |debtorBalance|`, decrements both residues, and
advances whichever pointer has its residue below `0.01`.  In exact
arithmetic `amt` zeroes at least one side each turn, so the loop performs
at most `creditors.length + debtors.length` iterations — that is the fuel
`sweep` supplies.  (The source loop itself is unbounded; on inputs it can
never receive — a "debtor" with a positive balance — it would spin
forever, which the fuel cuts off.) -/
def sweepGo : Nat → List (Nat × ℚ) → List (Nat × ℚ) → List SettlementRecord
  | 0, _, _ => []
  | _ + 1, [], _ => []
  | _ + 1, _ :: _, [] => []
  | fuel + 1, (cu, cb) :: cs, (du, db) :: ds =>
      let amt := min cb (jsAbs db)
      let cb' := cb - amt
      let db' := db + amt
      if jsAbs cb' < 1/100 then
        if jsAbs db' < 1/100 then ⟨du, cu, amt⟩ :: sweepGo fuel cs ds
        else ⟨du, cu, amt⟩ :: sweepGo fuel cs ((du, db') :: ds)
      else
        if jsAbs db' < 1/100 then
          ⟨du, cu, amt⟩ :: sweepGo fuel ((cu, cb') :: cs) ds
        else sweepGo fuel ((cu, cb') :: cs) ((du, db') :: ds)

/-- The greedy sweep with the fuel it needs in exact arithmetic. -/
def sweep (cs ds : List (Nat × ℚ)) : List SettlementRecord :=
  sweepGo (cs.length + ds.length) cs ds

/-- The settlement-suggestion computation of `GET /:groupId/balances`
(payments.js 1583–1608): filter members with `Math.abs(balance) > 0.01`,
sort creditors by `(a, b) => b.balance - a.balance` (descending) and
debtors by `(a, b) => a.balance - b.balance` (ascending), and run the
greedy sweep. -/
def suggestSettlements (ms : List Member) : List SettlementRecord :=
  let membersWithBalance := ms.filter fun m => decide (1/100 < jsAbs m.balance)
  let creditors := sortStable (fun a b => decide (b.balance ≤ a.balance))
    (membersWithBalance.filter fun m => decide (0 < m.balance))
  let debtors := sortStable (fun a b => decide (a.balance ≤ b.balance))
    (membersWithBalance.filter fun m => decide (m.balance < 0))
  sweep (creditors.map fun m => (m.user, m.balance))
    (debtors.map fun m => (m.user, m.balance))

/-- Total amount a user pays across a list of settlement transfers. -/
def paidTotal (ts : List SettlementRecord) (u : Nat) : ℚ :=
  ((ts.filter fun t => t.fromUser == u).map (·.amount)).sum

/-- Total amount a user receives across a list of settlement transfers. -/
def recvTotal (ts : List SettlementRecord) (u : Nat) : ℚ :=
  ((ts.filter fun t => t.toUser == u).map (·.amount)).sum

/-- A member's net balance after the transfers are applied, the way the
settle route applies them (payer's balance rises, receiver's falls). -/
def appliedBalance (b : ℚ) (ts : List SettlementRecord) (u : Nat) : ℚ :=
  b + paidTotal ts u - recvTotal ts u

/-- Predicate: `q` is a whole number of minor units (cents). -/
def IsCents (q : ℚ) : Prop := ∃ k : ℤ, q = k / 100

/-! ## Expense settlement facade

`POST /api/payments/settle-expense` (payments.js 160–322).
-/

/-- Outcomes of the settle-expense route that the claims distinguish. -/
inductive SettleOutcome
  | notParticipant
  | alreadySettled
  | exceedsShare
  | insufficientBalance
  | processFailed
  | saveFailed
  | ok
deriving DecidableEq

/-- Result of the settle-expense route: outcome, the expense as stored
afterwards, the settlement transactions persisted, and wallet balances. -/
structure SettleExpenseResult where
  outcome : SettleOutcome
  expense : Expense
  txs : List Tx
  balances : Nat → ℚ

/-- Route `POST /api/payments/settle-expense` (payments.js 160–322).

Guards, in source order: the caller must be a participant (first match of
`participants.find`), their share must not be settled already, an explicit
`amount` exceeding the share is rejected ("Settlement amount cannot exceed
your share"), and a `wallet` payment needs `walletBalance ≥` the settlement
amount.  `settlementAmount` is `amount || userParticipation.amount` (an
absent amount defaults to the share; the route validation bars `amount ≤
0`).  Then a `settlement` transaction is created and processed; on success
the participant is marked settled (with `settledAt` stamped) only when
`settlementAmount === userParticipation.amount`, the settlement record is
pushed, the all-settled check may close the expense, and `expense.save()`
re-runs the `pre('save')` hook — which recalculates and re-validates splits
only when `participants` was modified, i.e. only when the settled flag was
set. -/
def settleExpense (e : Expense) (caller : Nat) (amt : Option ℚ)
    (walletPay : Bool) (st : Nat → ℚ) (failAt : Option Nat) :
    SettleExpenseResult :=
  match e.participants.find? (fun p => p.user == caller) with
  | none => ⟨.notParticipant, e, [], st⟩
  | some part =>
    if part.settled then ⟨.alreadySettled, e, [], st⟩
    else
      let settlementAmount := amt.getD part.amount
      if part.amount < settlementAmount then ⟨.exceedsShare, e, [], st⟩
      else if walletPay = true ∧ st caller < settlementAmount then
        ⟨.insufficientBalance, e, [], st⟩
      else
        let t : Tx :=
          { type := .settlement, amount := settlementAmount,
            fromUser := caller, toUser := some e.paidBy, status := .pending }
        let r := process t st failAt
        if r.ok then
          let participantsModified := settlementAmount = part.amount
          let markSettled := updateFirst (fun p => p.user == caller)
            (fun p => { p with settled := true, settledAt := true })
            e.participants
          let e1 :=
            if participantsModified then { e with participants := markSettled }
            else e
          let newRecords :=
            e1.settlementRecords ++ [⟨caller, e.paidBy, settlementAmount⟩]
          let e2 := { e1 with settlementRecords := newRecords }
          let allSettled := e2.participants.all fun p =>
            p.settled || p.user == e.paidBy
          let e3 :=
            if allSettled then { e2 with isSettled := true, statusSettled := true }
            else e2
          if participantsModified then
            match saveExpense e3 with
            | some e4 => ⟨.ok, e4, [r.tx], r.balances⟩
            | none => ⟨.saveFailed, e, [r.tx], r.balances⟩
          else ⟨.ok, e3, [r.tx], r.balances⟩
        else ⟨.processFailed, e, [r.tx], r.balances⟩

/-! ## Helper lemmas -/

theorem sum_map_const_rat {α : Type} (l : List α) (c : ℚ) :
    (l.map fun _ => c).sum = l.length * c := by
  induction l with
  | nil => simp
  | cons x xs ih => simp [ih]; ring

theorem calculateSplits_amount (e : Expense) :
    (calculateSplits e).amount = e.amount := by
  cases h : e.splitType <;> simp [calculateSplits, h]

theorem calculateSplits_equal_amounts (e : Expense) (hty : e.splitType = .equal) :
    (calculateSplits e).participants.map (·.amount)
      = e.participants.map fun _ => e.amount / (e.participants.length : ℚ) := by
  simp [calculateSplits, hty, List.map_map, Function.comp_def]

theorem length_cast_ne_zero {α : Type} (l : List α) (h : l ≠ []) :
    ((l.length : ℚ)) ≠ 0 := by
  have : 0 < l.length := List.length_pos.mpr h
  exact_mod_cast Nat.pos_iff_ne_zero.mp this

/-! ## C1 — exact-sum invariant and save-time rejection -/

/-- A custom-split expense whose participant amounts total `201/200`,
`0.005` away from the `1` total. -/
def c1Expense : Expense :=
  { amount := 1, paidBy := 0, splitType := .custom,
    participants := [{ user := 1, amount := 1/2 }, { user := 2, amount := 101/200 }] }

/-- C1 counterexample: the claim says participant amounts always reconcile
to the total exactly, with zero tolerance, and a non-reconciling expense is
rejected at save time.  `c1Expense` has a split sum of `201/200 ≠ 1`, yet
the save-time validation accepts it, because `validateSplits` allows a
`0.01` tolerance. -/
theorem C1_counterexample :
    (saveExpense c1Expense).isSome = true ∧
    splitSum (calculateSplits c1Expense) ≠ (calculateSplits c1Expense).amount := by
  refine ⟨?_, ?_⟩
  · simp only [saveExpense, validateSplits, c1Expense, calculateSplits, splitSum,
      jsAbs, List.map_cons, List.map_nil, List.sum_cons, List.sum_nil]
    norm_num
  · simp only [c1Expense, calculateSplits, splitSum, List.map_cons, List.map_nil,
      List.sum_cons, List.sum_nil]
    norm_num

/-- C1 amended: the equal policy does reconcile exactly (each participant
gets `total / n`, summing back to `total`), but save-time validation
accepts any recalculated split whose sum is within `0.01` of the total —
a 1-cent tolerance, not zero tolerance. -/
theorem C1_equal_exact_and_save_tolerance (e : Expense)
    (hn : e.participants ≠ []) :
    (e.splitType = .equal → splitSum (calculateSplits e) = e.amount) ∧
    ((saveExpense e).isSome
      ↔ |splitSum (calculateSplits e) - e.amount| ≤ 1/100) := by
  constructor
  · intro hty
    rw [splitSum, calculateSplits_equal_amounts e hty, sum_map_const_rat]
    field_simp [length_cast_ne_zero e.participants hn]
  · rw [saveExpense]
    by_cases hv : |splitSum (calculateSplits e) - e.amount| ≤ 1/100
    · have hb : validateSplits (calculateSplits e) = true := by
        simp only [validateSplits, jsAbs_eq_abs, calculateSplits_amount,
          decide_eq_true_eq]
        exact hv
      simp only [hb, if_true, Option.isSome_some, true_iff]
      exact hv
    · have hb : validateSplits (calculateSplits e) = false := by
        simp only [validateSplits, jsAbs_eq_abs, calculateSplits_amount,
          decide_eq_false_iff_not]
        exact hv
      simp only [hb, if_false, Bool.false_eq_true, Option.isSome_none,
        Bool.false_eq_true, false_iff]
      exact hv

/-- Witness for `C1_equal_exact_and_save_tolerance` at a two-participant
equal expense of total `10`. -/
def c1WitnessExpense : Expense :=
  { amount := 10, paidBy := 0, splitType := .equal,
    participants := [{ user := 1, amount := 0 }, { user := 2, amount := 0 }] }

theorem C1_equal_exact_and_save_tolerance_witness :
    splitSum (calculateSplits c1WitnessExpense) = c1WitnessExpense.amount ∧
    ((saveExpense c1WitnessExpense).isSome
      ↔ |splitSum (calculateSplits c1WitnessExpense) - c1WitnessExpense.amount|
          ≤ 1/100) :=
  ⟨(C1_equal_exact_and_save_tolerance c1WitnessExpense
      (by simp [c1WitnessExpense])).1 rfl,
    (C1_equal_exact_and_save_tolerance c1WitnessExpense
      (by simp [c1WitnessExpense])).2⟩

/-! ## C2 — equal split: plain division, no remainder distribution -/

/-- Total `100` split equally among three participants. -/
def c2Expense : Expense :=
  { amount := 100, paidBy := 0, splitType := .equal,
    participants :=
      [{ user := 1, amount := 0 }, { user := 2, amount := 0 },
       { user := 3, amount := 0 }] }

/-- C2 counterexample: the claim says equal splitting of 100 minor units
among 3 participants yields integer shares `[34, 33, 33]` by integer
division plus remainder distribution.  The source assigns every participant
the plain quotient `100 / 3` — no participant receives an integer share. -/
theorem C2_counterexample :
    (calculateSplits c2Expense).participants.map (·.amount)
        = [100/3, 100/3, 100/3] ∧
    (calculateSplits c2Expense).participants.map (·.amount) ≠ [34, 33, 33] := by
  refine ⟨?_, ?_⟩
  · simp [c2Expense, calculateSplits]
  · simp only [c2Expense, calculateSplits, List.map_cons, List.map_nil]
    intro h
    rw [List.cons.injEq] at h
    have := h.1
    norm_num at this

/-- C2 amended: the equal policy gives every participant exactly
`total / n` (exact rational division of the stored amount — no
integer-minor-unit rounding and no remainder to distribute), and the shares
still sum exactly to the total. -/
theorem C2_equal_plain_division (e : Expense) (hty : e.splitType = .equal)
    (hn : e.participants ≠ []) :
    (∀ p ∈ (calculateSplits e).participants,
        p.amount = e.amount / (e.participants.length : ℚ)) ∧
    splitSum (calculateSplits e) = e.amount := by
  constructor
  · intro p hp
    have hmap := calculateSplits_equal_amounts e hty
    have : p.amount ∈ (calculateSplits e).participants.map (·.amount) :=
      List.mem_map_of_mem _ hp
    rw [hmap] at this
    rcases List.mem_map.mp this with ⟨q, _, hq⟩
    exact hq.symm
  · rw [splitSum, calculateSplits_equal_amounts e hty, sum_map_const_rat]
    field_simp [length_cast_ne_zero e.participants hn]

theorem C2_equal_plain_division_witness :
    splitSum (calculateSplits c2Expense) = c2Expense.amount :=
  (C2_equal_plain_division c2Expense rfl (by simp [c2Expense])).2

/-! ## C3 — completion applies both deltas; failure is not atomic -/

/-- A wallet transfer of `30` from user `0` to user `1`. -/
def c3Tx : Tx :=
  { type := .transfer, amount := 30, fromUser := 0, toUser := some 1 }

/-- Balances before the transfer: user `0` holds `100`, everyone else `50`. -/
def c3State : Nat → ℚ := fun u => if u = 0 then 100 else 50

/-- C3 counterexample: the claim says a failed processing run leaves all
balances exactly as they were.  Injecting a failure between the sender
debit and the receiver credit (the second `findByIdAndUpdate` throwing)
ends the transaction in `failed` with the sender already debited — `70`
instead of the original `100` — and the receiver never credited. -/
theorem C3_counterexample :
    (process c3Tx c3State (some 1)).tx.status = .failed ∧
    c3State 0 = 100 ∧
    (process c3Tx c3State (some 1)).balances 0 = 70 ∧
    (process c3Tx c3State (some 1)).balances 1 = 50 := by
  refine ⟨rfl, by norm_num [c3State], ?_, ?_⟩
  · simp [process, c3Tx, c3State, walletUpdates, applyUpdates]
    norm_num
  · simp [process, c3Tx, c3State, walletUpdates, applyUpdates]

/-- C3 amended: a completed `process` run applies both transfer deltas
(sender debited, receiver credited, all other balances untouched), and a
run that fails before any balance update leaves every balance unchanged
with the transaction `failed`; but a failure between the debit and the
credit leaves the debit applied (see `C3_counterexample`) — there is no
rollback, so failure atomicity holds only for failures occurring before
the first update. -/
theorem C3_completion_and_prefailure (t : Tx) (st : Nat → ℚ) (u : Nat)
    (hty : t.type = .transfer) (hto : t.toUser = some u)
    (hne : u ≠ t.fromUser) :
    ((process t st none).tx.status = .completed ∧
      (process t st none).balances t.fromUser = st t.fromUser - t.amount ∧
      (process t st none).balances u = st u + t.amount ∧
      ∀ v, v ≠ t.fromUser → v ≠ u → (process t st none).balances v = st v) ∧
    ((process t st (some 0)).tx.status = .failed ∧
      ∀ v, (process t st (some 0)).balances v = st v) := by
  have hupd : walletUpdates t = [(t.fromUser, -t.amount), (u, t.amount)] := by
    simp [walletUpdates, hty, hto]
  refine ⟨⟨rfl, ?_, ?_, ?_⟩, rfl, ?_⟩
  · simp [process, hupd, applyUpdates, hne.symm, sub_eq_add_neg]
  · simp [process, hupd, applyUpdates, hne]
  · intro v hv1 hv2
    simp [process, hupd, applyUpdates, hv1, hv2]
  · intro v
    simp [process, applyUpdates]

theorem C3_completion_and_prefailure_witness :
    ((process c3Tx c3State none).tx.status = .completed ∧
      (process c3Tx c3State none).balances 0 = c3State 0 - c3Tx.amount ∧
      (process c3Tx c3State none).balances 1 = c3State 1 + c3Tx.amount ∧
      (process c3Tx c3State none).balances 7 = c3State 7) ∧
    ((process c3Tx c3State (some 0)).tx.status = .failed ∧
      (process c3Tx c3State (some 0)).balances 0 = c3State 0) := by
  have h := C3_completion_and_prefailure c3Tx c3State 1 rfl rfl (by decide)
  exact ⟨⟨h.1.1, h.1.2.1, h.1.2.2.1, h.1.2.2.2 7 (by decide) (by decide)⟩,
    h.2.1, h.2.2 0⟩

/-! ## C4 — insufficient funds rejected before any processing -/

/-- C4 confirmed: both money-creating routes compare the sender's wallet
balance against the amount before creating any transaction; when
`walletBalance < amount` they answer the insufficient-balance 400, persist
no transaction, and leave every wallet balance unchanged. -/
theorem C4_insufficient_funds_rejected (senderId recipientId : Nat)
    (amount : ℚ) (st : Nat → ℚ) (failAt : Option Nat) (toUser : Option Nat)
    (hne : recipientId ≠ senderId) (hlt : st senderId < amount) :
    ((sendMoney senderId recipientId amount true st failAt).outcome
        = .insufficientBalance ∧
      (sendMoney senderId recipientId amount true st failAt).txs = [] ∧
      ∀ u, (sendMoney senderId recipientId amount true st failAt).balances u
        = st u) ∧
    ((createTransaction senderId .transfer amount toUser true st
        failAt).outcome = .insufficientBalance ∧
      (createTransaction senderId .transfer amount toUser true st
        failAt).txs = [] ∧
      ∀ u, (createTransaction senderId .transfer amount toUser true st
        failAt).balances u = st u) := by
  refine ⟨?_, ?_⟩ <;> simp [sendMoney, createTransaction, hne, hlt]

theorem C4_insufficient_funds_rejected_witness :
    ((sendMoney 0 1 5 true (fun _ => 0) none).outcome
        = .insufficientBalance ∧
      (sendMoney 0 1 5 true (fun _ => 0) none).txs = [] ∧
      (sendMoney 0 1 5 true (fun _ => 0) none).balances 0 = 0) ∧
    ((createTransaction 0 .transfer 5 none true (fun _ => 0) none).outcome
        = .insufficientBalance ∧
      (createTransaction 0 .transfer 5 none true (fun _ => 0) none).txs
        = [] ∧
      (createTransaction 0 .transfer 5 none true (fun _ => 0)
        none).balances 0 = 0) := by
  have h := C4_insufficient_funds_rejected 0 1 5 (fun _ => 0) none none
    (by decide) (by norm_num)
  exact ⟨⟨h.1.1, h.1.2.1, h.1.2.2 0⟩, h.2.1, h.2.2.1, h.2.2.2 0⟩

/-! ## C6 — retry permitted only from failed, under the retry bound -/

/-- C6 confirmed: `retry` returns normally only when the transaction is
`failed` with `retryCount < maxRetries`; and at `retryCount = 3 =
maxRetries` in `failed` state it throws the retry-limit error — the route
answers the same 400 and hands back the transaction and balances
untouched. -/
theorem C6_retry_guard (t : Tx) (st : Nat → ℚ) (failAt : Option Nat) :
    (∀ r, retry t st failAt = .ok r →
      t.status = .failed ∧ t.retryCount < t.maxRetries) ∧
    (t.retryCount = 3 → t.maxRetries = 3 → t.status = .failed →
      retry t st failAt = .error .retryLimitExceeded ∧
      (retryRoute t t.fromUser st failAt).resp = .retryLimit ∧
      (retryRoute t t.fromUser st failAt).tx = t ∧
      ∀ u, (retryRoute t t.fromUser st failAt).balances u = st u) := by
  constructor
  · intro r hr
    by_cases h1 : t.retryCount ≥ t.maxRetries
    · simp [retry, h1] at hr
    · by_cases h2 : t.status = .failed
      · exact ⟨h2, lt_of_not_ge h1⟩
      · simp [retry, h1, h2] at hr
  · intro h3 hm hf
    have hge : t.retryCount ≥ t.maxRetries := by omega
    refine ⟨by simp [retry, hge], ?_, ?_, ?_⟩ <;>
      simp [retryRoute, hf, hge]

/-- A failed transfer that has exhausted its three retries. -/
def c6Tx : Tx :=
  { type := .transfer, amount := 1, fromUser := 0, toUser := some 1,
    status := .failed, retryCount := 3, maxRetries := 3 }

theorem C6_retry_guard_witness :
    retry c6Tx c3State none = .error .retryLimitExceeded ∧
    (retryRoute c6Tx c6Tx.fromUser c3State none).resp = .retryLimit ∧
    (retryRoute c6Tx c6Tx.fromUser c3State none).tx = c6Tx ∧
    (retryRoute c6Tx c6Tx.fromUser c3State none).balances 0 = c3State 0 := by
  have h := (C6_retry_guard c6Tx c3State none).2 rfl rfl rfl
  exact ⟨h.1, h.2.1, h.2.2.1, h.2.2.2 0⟩

/-! ## C10 — only the transaction creator may retry or cancel -/

/-- C10 confirmed: both the retry and the cancel route answer 403 for any
caller other than `from.user`, before touching anything — the transaction
(status, `retryCount`, everything) and all wallet balances come back
exactly as they were. -/
theorem C10_creator_only (t : Tx) (caller : Nat) (st : Nat → ℚ)
    (failAt : Option Nat) (h : caller ≠ t.fromUser) :
    ((retryRoute t caller st failAt).resp = .forbidden ∧
      (retryRoute t caller st failAt).tx = t ∧
      ∀ u, (retryRoute t caller st failAt).balances u = st u) ∧
    ((cancelRoute t caller st).resp = .forbidden ∧
      (cancelRoute t caller st).tx = t ∧
      ∀ u, (cancelRoute t caller st).balances u = st u) := by
  refine ⟨⟨?_, ?_, ?_⟩, ⟨?_, ?_, ?_⟩⟩ <;> simp [retryRoute, cancelRoute, h]

theorem C10_creator_only_witness :
    ((retryRoute c3Tx 5 c3State none).resp = .forbidden ∧
      (retryRoute c3Tx 5 c3State none).tx = c3Tx ∧
      (retryRoute c3Tx 5 c3State none).balances 0 = c3State 0) ∧
    ((cancelRoute c3Tx 5 c3State).resp = .forbidden ∧
      (cancelRoute c3Tx 5 c3State).tx = c3Tx ∧
      (cancelRoute c3Tx 5 c3State).balances 0 = c3State 0) := by
  have h := C10_creator_only c3Tx 5 c3State none (by decide)
  exact ⟨⟨h.1.1, h.1.2.1, h.1.2.2 0⟩, h.2.1, h.2.2.1, h.2.2.2 0⟩

/-! ## C5 / C8 — recomputation vs incrementally maintained balances -/

theorem map_updateFirst_eq {α β : Type} (p : α → Bool) (f : α → α)
    (g : α → β) (hf : ∀ x, g (f x) = g x) (l : List α) :
    (updateFirst p f l).map g = l.map g := by
  induction l with
  | nil => rfl
  | cons x xs ih => by_cases h : p x <;> simp [updateFirst, h, hf, ih]

/-- The members list stored by a successful `POST /:groupId/settle`. -/
theorem settleRoute_members (g : Group) (c t : Nat) (a : ℚ) (g' : Group)
    (h : settleRoute g c t a = some g') :
    g'.members =
      updateFirst (fun m => m.user == c)
        (fun m => { m with balance := m.balance + a })
        (updateFirst (fun m => m.user == t)
          (fun m => { m with balance := m.balance - a }) g.members) := by
  unfold settleRoute at h
  split at h
  · exact absurd h (by simp)
  · split at h
    · exact absurd h (by simp)
    · split at h
      · exact absurd h (by simp)
      · injection h with h2
        rw [← h2]

/-- A two-member group with no history. -/
def c5Group : Group := { members := [{ user := 1 }, { user := 2 }] }

/-- State of `c5Group` after user 2 records paying user 1 an amount of `5` through
`POST /:groupId/settle`. -/
def c5GroupAfter : Group :=
  { members := [{ user := 1, balance := -5 }, { user := 2, balance := 5 }],
    settlements := [⟨2, 1, 5⟩] }

theorem settleRoute_c5_eq : settleRoute c5Group 2 1 5 = some c5GroupAfter := by
  rw [settleRoute, if_neg (by norm_num),
    if_neg (by simp [c5Group, List.find?]),
    if_neg (by simp [c5Group, List.find?])]
  simp only [c5Group, c5GroupAfter, updateFirst]
  norm_num

/-- C5 counterexample: the claim says replaying the full history (expenses
and applied settlements) reproduces the incrementally maintained balances
for any interleaving.  After a single recorded settlement (no expenses at
all), the incrementally maintained balances are `[-5, 5]` while
`calculateBalances` — which replays only expenses and ignores the
settlements array — recomputes `[0, 0]`. -/
theorem C5_counterexample :
    settleRoute c5Group 2 1 5 = some c5GroupAfter ∧
    c5GroupAfter.members.map (·.balance) = [-5, 5] ∧
    (calculateBalances c5GroupAfter.members []).map (·.balance) = [0, 0] := by
  refine ⟨settleRoute_c5_eq, by simp [c5GroupAfter], ?_⟩
  simp [calculateBalances, c5GroupAfter, resetMember]

/-- C5 amended: `calculateBalances` replays only the group's expenses —
recorded settlements are reset away and never consulted — so recomputation
yields identical member balances whether or not a settlement was applied
beforehand: it agrees with the incrementally maintained values only on
settlement-free histories, and discards the effect of every recorded
settlement. -/
theorem C5_recompute_ignores_settlements (g : Group) (c t : Nat) (a : ℚ)
    (g' : Group) (h : settleRoute g c t a = some g') (es : List GExpense) :
    calculateBalances g'.members es = calculateBalances g.members es := by
  have hm : g'.members.map resetMember = g.members.map resetMember := by
    rw [settleRoute_members g c t a g' h,
      map_updateFirst_eq (fun m => m.user == c)
        (fun m => { m with balance := m.balance + a }) resetMember
        (fun x => rfl),
      map_updateFirst_eq (fun m => m.user == t)
        (fun m => { m with balance := m.balance - a }) resetMember
        (fun x => rfl)]
  unfold calculateBalances
  rw [hm]

theorem C5_recompute_ignores_settlements_witness :
    calculateBalances c5GroupAfter.members [] = calculateBalances c5Group.members [] :=
  C5_recompute_ignores_settlements c5Group 2 1 5 c5GroupAfter settleRoute_c5_eq []

/-- The stored-balance invariant claimed for every reachable state. -/
def balanceInvariantHolds (ms : List Member) : Prop :=
  ∀ m ∈ ms, m.balance = m.totalPaid - m.totalOwed

/-- C8 counterexample: the claim says every operation preserves
`net_balance = total_paid - total_owed`.  The settle route updates only
`balance`, leaving `totalPaid`/`totalOwed` at their old values: starting
from a state satisfying the invariant, one recorded settlement of `5`
produces members with `balance = ±5` but `totalPaid - totalOwed = 0`. -/
theorem C8_counterexample :
    settleRoute c5Group 2 1 5 = some c5GroupAfter ∧
    balanceInvariantHolds c5Group.members ∧
    ¬ balanceInvariantHolds c5GroupAfter.members := by
  refine ⟨settleRoute_c5_eq, ?_, ?_⟩
  · intro m hm
    simp only [c5Group, List.mem_cons, List.mem_singleton] at hm
    rcases hm with h | h | h <;> first | (rw [h]; norm_num) | cases h
  · intro hinv
    have h5 := hinv { user := 1, balance := -5 } (by simp [c5GroupAfter])
    norm_num at h5

/-- C8 amended: the invariant `balance = totalPaid - totalOwed` is
established by every run of `calculateBalances` (its final step assigns
exactly that), but the settle route changes `balance` alone while
preserving every member's `totalPaid` and `totalOwed`, so a recorded
settlement breaks the invariant until the next recomputation. -/
theorem C8_invariant_recompute_only (ms : List Member) (es : List GExpense)
    (g : Group) (c t : Nat) (a : ℚ) (g' : Group)
    (h : settleRoute g c t a = some g') :
    balanceInvariantHolds (calculateBalances ms es) ∧
    g'.members.map (fun m => (m.totalPaid, m.totalOwed))
      = g.members.map (fun m => (m.totalPaid, m.totalOwed)) := by
  constructor
  · intro m hm
    unfold calculateBalances at hm
    rcases List.mem_map.mp hm with ⟨m', _, hm'⟩
    rw [← hm']
  · rw [settleRoute_members g c t a g' h,
      map_updateFirst_eq (fun m : Member => m.user == c)
        (fun m : Member => { m with balance := m.balance + a })
        (fun m : Member => (m.totalPaid, m.totalOwed)) (fun x => rfl),
      map_updateFirst_eq (fun m : Member => m.user == t)
        (fun m : Member => { m with balance := m.balance - a })
        (fun m : Member => (m.totalPaid, m.totalOwed)) (fun x => rfl)]

theorem C8_invariant_recompute_only_witness :
    balanceInvariantHolds (calculateBalances c5Group.members []) ∧
    c5GroupAfter.members.map (fun m => (m.totalPaid, m.totalOwed))
      = c5Group.members.map (fun m => (m.totalPaid, m.totalOwed)) :=
  C8_invariant_recompute_only c5Group.members [] c5Group 2 1 5 c5GroupAfter
    settleRoute_c5_eq

/-! ## C9 — settling an expense share -/

theorem find?_updateFirst_of_found {α : Type} (p : α → Bool) (f : α → α)
    (l : List α) (x : α) (hx : l.find? p = some x) (hf : p (f x) = true) :
    (updateFirst p f l).find? p = some (f x) := by
  induction l with
  | nil => simp at hx
  | cons y ys ih =>
    by_cases h : p y = true
    · rw [List.find?_cons_of_pos ys h] at hx
      injection hx with hx
      subst hx
      simp only [updateFirst, h, if_true]
      exact List.find?_cons_of_pos ys hf
    · rw [List.find?_cons_of_neg ys (by simpa using h)] at hx
      simp only [updateFirst, h, if_false, Bool.false_eq_true]
      rw [List.find?_cons_of_neg _ (by simpa using h)]
      exact ih hx

/-- Recalculation via `calculateSplits` only rewrites each participant's `amount` and
`percentage`; identity, settled flag and timestamp survive. -/
theorem calculateSplits_map_form (e : Expense) :
    ∃ g : Participant → Participant,
      (calculateSplits e).participants = e.participants.map g ∧
      ∀ p, (g p).user = p.user ∧ (g p).settled = p.settled ∧
        (g p).settledAt = p.settledAt := by
  cases h : e.splitType
  case equal =>
    refine ⟨fun p => { p with
      amount := e.amount / (e.participants.length : ℚ),
      percentage := 100 / (e.participants.length : ℚ) },
      ?_, fun p => ⟨rfl, rfl, rfl⟩⟩
    simp [calculateSplits, h]
  case percentage =>
    refine ⟨fun p => { p with amount := e.amount * p.percentage / 100 },
      ?_, fun p => ⟨rfl, rfl, rfl⟩⟩
    simp [calculateSplits, h]
  case shares =>
    refine ⟨fun p => { p with
      amount := e.amount * p.shares / (e.participants.map (·.shares)).sum,
      percentage := p.shares / (e.participants.map (·.shares)).sum * 100 },
      ?_, fun p => ⟨rfl, rfl, rfl⟩⟩
    simp [calculateSplits, h]
  case custom =>
    refine ⟨fun p => { p with percentage := p.amount / e.amount * 100 },
      ?_, fun p => ⟨rfl, rfl, rfl⟩⟩
    simp [calculateSplits, h]

/-- The data `calculateSplits` actually reads from a participant. -/
def splitInputs (p : Participant) : ℚ × ℚ × ℚ := (p.amount, p.percentage, p.shares)

theorem splitSum_calculateSplits_congr (e₁ e₂ : Expense)
    (ha : e₁.amount = e₂.amount) (hty : e₁.splitType = e₂.splitType)
    (hp : e₁.participants.map splitInputs = e₂.participants.map splitInputs) :
    splitSum (calculateSplits e₁) = splitSum (calculateSplits e₂) := by
  have hlen : e₁.participants.length = e₂.participants.length := by
    have h1 := congrArg List.length hp
    simpa using h1
  cases h : e₂.splitType
  case equal =>
    rw [splitSum, calculateSplits_equal_amounts e₁ (hty.trans h),
      splitSum, calculateSplits_equal_amounts e₂ h,
      sum_map_const_rat, sum_map_const_rat, hlen, ha]
  case percentage =>
    have h1 : splitSum (calculateSplits e₁)
        = ((e₁.participants.map splitInputs).map
            fun t => e₂.amount * t.2.1 / 100).sum := by
      rw [splitSum]
      simp [calculateSplits, hty.trans h, List.map_map, Function.comp_def,
        splitInputs, ha]
    have h2 : splitSum (calculateSplits e₂)
        = ((e₂.participants.map splitInputs).map
            fun t => e₂.amount * t.2.1 / 100).sum := by
      rw [splitSum]
      simp [calculateSplits, h, List.map_map, Function.comp_def, splitInputs]
    rw [h1, h2, hp]
  case shares =>
    have hts : (e₁.participants.map (·.shares)).sum
        = (e₂.participants.map (·.shares)).sum := by
      have h1 : e₁.participants.map (·.shares)
          = (e₁.participants.map splitInputs).map (·.2.2) := by
        simp [List.map_map, Function.comp_def, splitInputs]
      have h2 : e₂.participants.map (·.shares)
          = (e₂.participants.map splitInputs).map (·.2.2) := by
        simp [List.map_map, Function.comp_def, splitInputs]
      rw [h1, h2, hp]
    have h1 : splitSum (calculateSplits e₁)
        = ((e₁.participants.map splitInputs).map
            fun t => e₂.amount * t.2.2
              / (e₂.participants.map (·.shares)).sum).sum := by
      rw [splitSum]
      simp [calculateSplits, hty.trans h, List.map_map, Function.comp_def,
        splitInputs, ha, hts]
    have h2 : splitSum (calculateSplits e₂)
        = ((e₂.participants.map splitInputs).map
            fun t => e₂.amount * t.2.2
              / (e₂.participants.map (·.shares)).sum).sum := by
      rw [splitSum]
      simp [calculateSplits, h, List.map_map, Function.comp_def, splitInputs]
    rw [h1, h2, hp]
  case custom =>
    have h1 : splitSum (calculateSplits e₁)
        = ((e₁.participants.map splitInputs).map (·.1)).sum := by
      rw [splitSum]
      simp [calculateSplits, hty.trans h, List.map_map, Function.comp_def,
        splitInputs]
    have h2 : splitSum (calculateSplits e₂)
        = ((e₂.participants.map splitInputs).map (·.1)).sum := by
      rw [splitSum]
      simp [calculateSplits, h, List.map_map, Function.comp_def, splitInputs]
    rw [h1, h2, hp]

theorem validateSplits_calculateSplits_congr (e₁ e₂ : Expense)
    (ha : e₁.amount = e₂.amount) (hty : e₁.splitType = e₂.splitType)
    (hp : e₁.participants.map splitInputs = e₂.participants.map splitInputs) :
    validateSplits (calculateSplits e₁) = validateSplits (calculateSplits e₂) := by
  rw [validateSplits, validateSplits, calculateSplits_amount,
    calculateSplits_amount, splitSum_calculateSplits_congr e₁ e₂ ha hty hp, ha]

/-- Recalculating splits keeps the participant found for a user, along with
its settled flag and timestamp. -/
theorem calculateSplits_find_settled (e' : Expense) (caller : Nat)
    (x : Participant)
    (hx : e'.participants.find? (fun p => p.user == caller) = some x) :
    ∃ q, (calculateSplits e').participants.find? (fun p => p.user == caller)
        = some q ∧
      q.settled = x.settled ∧ q.settledAt = x.settledAt := by
  obtain ⟨g, hmap, hg⟩ := calculateSplits_map_form e'
  refine ⟨g x, ?_, (hg x).2.1, (hg x).2.2⟩
  rw [hmap, List.find?_map]
  have hcomp : ((fun p : Participant => p.user == caller) ∘ g)
      = fun p => p.user == caller := by
    funext p
    simp [Function.comp, (hg p).1]
  rw [hcomp, hx]
  rfl

/-- C9 confirmed: for an unsettled participant settling through
`POST /api/payments/settle-expense` (with a funded wallet, no injected
failure, and an expense whose recalculated splits validate — true of any
expense that passed its own save hook): an explicit amount above the share
is rejected with nothing recorded; paying the share exactly marks the
participant settled with `settledAt` stamped; paying strictly less records
the settlement transaction but leaves the participant unsettled. -/
theorem C9_settle_expense_cases (e : Expense) (caller : Nat)
    (part : Participant) (st : Nat → ℚ)
    (hfind : e.participants.find? (fun p => p.user == caller) = some part)
    (hset : part.settled = false)
    (hwb : part.amount ≤ st caller)
    (hval : validateSplits (calculateSplits e) = true) :
    (∀ a, part.amount < a →
      (settleExpense e caller (some a) true st none).outcome = .exceedsShare ∧
      (settleExpense e caller (some a) true st none).expense = e ∧
      (settleExpense e caller (some a) true st none).txs = []) ∧
    ((settleExpense e caller none true st none).outcome = .ok ∧
      (settleExpense e caller none true st none).txs.length = 1 ∧
      ∃ q, (settleExpense e caller none true st
            none).expense.participants.find? (fun p => p.user == caller)
          = some q ∧
        q.settled = true ∧ q.settledAt = true) ∧
    (∀ a, 0 < a → a < part.amount →
      (settleExpense e caller (some a) true st none).outcome = .ok ∧
      (settleExpense e caller (some a) true st none).txs.length = 1 ∧
      (settleExpense e caller (some a) true st none).expense.participants
        = e.participants ∧
      (settleExpense e caller (some a) true st none).expense.settlementRecords
        = e.settlementRecords ++ [⟨caller, e.paidBy, a⟩]) := by
  have hpred : (part.user == caller) = true := by
    have h := List.find?_some hfind
    simpa using h
  refine ⟨?_, ?_, ?_⟩
  · intro a ha
    simp [settleExpense, hfind, hset, ha]
  · have hvalcongr : ∀ e3 : Expense, e3.amount = e.amount →
        e3.splitType = e.splitType →
        e3.participants.map splitInputs = e.participants.map splitInputs →
        saveExpense e3 = some (calculateSplits e3) := by
      intro e3 h1 h2 h3
      rw [saveExpense,
        if_pos ((validateSplits_calculateSplits_congr e3 e h1 h2 h3).trans hval)]
    have hfound := find?_updateFirst_of_found
      (fun p : Participant => p.user == caller)
      (fun p : Participant => { p with settled := true, settledAt := true })
      e.participants part hfind (by simpa using hpred)
    simp only [settleExpense, hfind, hset, Bool.false_eq_true, if_false,
      Option.getD_none, if_neg (lt_irrefl part.amount), process]
    rw [if_neg (by simp [not_lt.mpr hwb])]
    simp only [if_true]
    by_cases hall : ((updateFirst (fun p : Participant => p.user == caller)
        (fun p => { p with settled := true, settledAt := true })
        e.participants).all fun p => p.settled || p.user == e.paidBy) = true
    · rw [if_pos hall,
        hvalcongr
          { amount := e.amount, paidBy := e.paidBy, splitType := e.splitType,
            participants := updateFirst (fun p => p.user == caller)
              (fun p => { p with settled := true, settledAt := true })
              e.participants,
            settlementRecords :=
              e.settlementRecords ++ [⟨caller, e.paidBy, part.amount⟩],
            isSettled := true, statusSettled := true }
          rfl rfl
          (map_updateFirst_eq (fun p : Participant => p.user == caller)
            (fun p : Participant => { p with settled := true, settledAt := true })
            splitInputs (fun x => rfl) e.participants)]
      refine ⟨rfl, rfl, ?_⟩
      obtain ⟨q, hq, hq1, hq2⟩ := calculateSplits_find_settled
        { amount := e.amount, paidBy := e.paidBy, splitType := e.splitType,
          participants := updateFirst (fun p => p.user == caller)
            (fun p => { p with settled := true, settledAt := true })
            e.participants,
          settlementRecords :=
            e.settlementRecords ++ [⟨caller, e.paidBy, part.amount⟩],
          isSettled := true, statusSettled := true }
        caller _ hfound
      exact ⟨q, hq, hq1, hq2⟩
    · rw [if_neg hall,
        hvalcongr
          { amount := e.amount, paidBy := e.paidBy, splitType := e.splitType,
            participants := updateFirst (fun p => p.user == caller)
              (fun p => { p with settled := true, settledAt := true })
              e.participants,
            settlementRecords :=
              e.settlementRecords ++ [⟨caller, e.paidBy, part.amount⟩],
            isSettled := e.isSettled, statusSettled := e.statusSettled }
          rfl rfl
          (map_updateFirst_eq (fun p : Participant => p.user == caller)
            (fun p : Participant => { p with settled := true, settledAt := true })
            splitInputs (fun x => rfl) e.participants)]
      refine ⟨rfl, rfl, ?_⟩
      obtain ⟨q, hq, hq1, hq2⟩ := calculateSplits_find_settled
        { amount := e.amount, paidBy := e.paidBy, splitType := e.splitType,
          participants := updateFirst (fun p => p.user == caller)
            (fun p => { p with settled := true, settledAt := true })
            e.participants,
          settlementRecords :=
            e.settlementRecords ++ [⟨caller, e.paidBy, part.amount⟩],
          isSettled := e.isSettled, statusSettled := e.statusSettled }
        caller _ hfound
      exact ⟨q, hq, hq1, hq2⟩
  · intro a h0 ha
    simp only [settleExpense, hfind, hset, Bool.false_eq_true, if_false,
      Option.getD_some, if_neg (not_lt.mpr ha.le), process]
    rw [if_neg (by simp [not_lt.mpr (ha.le.trans hwb)])]
    simp only [if_true, if_neg (ne_of_lt ha)]
    by_cases hall : (e.participants.all
        fun p => p.settled || p.user == e.paidBy) = true
    · rw [if_pos hall]
      exact ⟨trivial, rfl, rfl, rfl⟩
    · rw [if_neg hall]
      exact ⟨trivial, rfl, rfl, rfl⟩

/-- A consistent two-participant equal expense: total `10`, shares `5`
each, paid by user `2`. -/
def c9Expense : Expense :=
  { amount := 10, paidBy := 2, splitType := .equal,
    participants :=
      [{ user := 1, amount := 5, percentage := 50 },
       { user := 2, amount := 5, percentage := 50 }] }

theorem C9_settle_expense_cases_witness :
    (settleExpense c9Expense 1 (some 7) true (fun _ => 100) none).outcome
        = .exceedsShare ∧
    (settleExpense c9Expense 1 none true (fun _ => 100) none).outcome
        = .ok ∧
    (settleExpense c9Expense 1 (some 2) true (fun _ => 100) none).outcome
        = .ok ∧
    (settleExpense c9Expense 1 (some 2) true (fun _ => 100)
        none).expense.settlementRecords
      = c9Expense.settlementRecords ++ [⟨1, c9Expense.paidBy, 2⟩] := by
  have h := C9_settle_expense_cases c9Expense 1
    { user := 1, amount := 5, percentage := 50 } (fun _ => 100)
    rfl rfl (by norm_num)
    (by simp [validateSplits, calculateSplits, splitSum, jsAbs, c9Expense])
  exact ⟨(h.1 7 (by norm_num)).1, h.2.1.1,
    (h.2.2 2 (by norm_num) (by norm_num)).1,
    (h.2.2 2 (by norm_num) (by norm_num)).2.2.2⟩

/-! ## C7 — the greedy settlement sweep -/

theorem IsCents.add {a b : ℚ} (ha : IsCents a) (hb : IsCents b) :
    IsCents (a + b) := by
  obtain ⟨j, rfl⟩ := ha
  obtain ⟨k, rfl⟩ := hb
  exact ⟨j + k, by push_cast; ring⟩

theorem IsCents.neg {a : ℚ} (ha : IsCents a) : IsCents (-a) := by
  obtain ⟨j, rfl⟩ := ha
  exact ⟨-j, by push_cast; ring⟩

theorem IsCents.sub {a b : ℚ} (ha : IsCents a) (hb : IsCents b) :
    IsCents (a - b) := by
  rw [sub_eq_add_neg]
  exact ha.add hb.neg

theorem IsCents.min {a b : ℚ} (ha : IsCents a) (hb : IsCents b) :
    IsCents (min a b) := by
  rcases le_total a b with h | h
  · rwa [min_eq_left h]
  · rwa [min_eq_right h]

theorem isCents_jsAbs {a : ℚ} (ha : IsCents a) : IsCents (jsAbs a) := by
  by_cases h : a < 0
  · rw [jsAbs, if_pos h]
    exact ha.neg
  · rwa [jsAbs, if_neg h]

/-- For whole-cent quantities the `< 0.01` residue test is exactly a test
for zero. -/
theorem IsCents.small_iff_zero {q : ℚ} (h : IsCents q) :
    (jsAbs q < 1/100) ↔ q = 0 := by
  obtain ⟨k, rfl⟩ := h
  have hk : ((k:ℚ)/100 = 0) ↔ k = 0 := by
    constructor
    · intro h0
      field_simp at h0
      exact_mod_cast h0
    · intro h0
      simp [h0]
  rw [jsAbs_eq_abs, hk]
  constructor
  · intro hlt
    rw [abs_div, abs_of_pos (show (0:ℚ) < 100 by norm_num),
      div_lt_div_iff₀ (by norm_num) (by norm_num)] at hlt
    have h1 : |(k:ℚ)| < 1 := by linarith
    have h2 : |k| < 1 := by exact_mod_cast h1
    rw [abs_lt] at h2
    omega
  · intro h0
    subst h0
    norm_num

theorem paidTotal_nil (u : Nat) : paidTotal [] u = 0 := rfl

theorem recvTotal_nil (u : Nat) : recvTotal [] u = 0 := rfl

theorem paidTotal_cons (t : SettlementRecord) (ts : List SettlementRecord)
    (u : Nat) :
    paidTotal (t :: ts) u
      = (if t.fromUser == u then t.amount else 0) + paidTotal ts u := by
  by_cases h : t.fromUser == u <;> simp [paidTotal, List.filter_cons, h]

theorem recvTotal_cons (t : SettlementRecord) (ts : List SettlementRecord)
    (u : Nat) :
    recvTotal (t :: ts) u
      = (if t.toUser == u then t.amount else 0) + recvTotal ts u := by
  by_cases h : t.toUser == u <;> simp [recvTotal, List.filter_cons, h]

/-- Sum of the balances a `(user, balance)` pair list holds for one user. -/
def entrySum (l : List (Nat × ℚ)) (u : Nat) : ℚ :=
  ((l.filter fun c => c.1 == u).map (·.2)).sum

theorem entrySum_nil (u : Nat) : entrySum [] u = 0 := rfl

theorem entrySum_cons (c : Nat × ℚ) (l : List (Nat × ℚ)) (u : Nat) :
    entrySum (c :: l) u = (if c.1 == u then c.2 else 0) + entrySum l u := by
  by_cases h : c.1 == u <;> simp [entrySum, List.filter_cons, h]

theorem insertSorted_perm {α : Type} (le : α → α → Bool) (x : α)
    (l : List α) : (insertSorted le x l).Perm (x :: l) := by
  induction l with
  | nil => exact List.Perm.refl _
  | cons y ys ih =>
    by_cases h : le y x = true
    · simp only [insertSorted, h, if_true]
      exact (ih.cons y).trans (List.Perm.swap x y ys)
    · simp only [insertSorted, h, if_false, Bool.false_eq_true]
      exact List.Perm.refl _

theorem sortStable_go_perm {α : Type} (le : α → α → Bool) (l acc : List α) :
    (l.foldl (fun acc x => insertSorted le x acc) acc).Perm (acc ++ l) := by
  induction l generalizing acc with
  | nil => simp
  | cons x xs ih =>
    simp only [List.foldl_cons]
    refine (ih (insertSorted le x acc)).trans ?_
    refine (((insertSorted_perm le x acc).append_right xs).trans ?_)
    exact List.perm_middle.symm

theorem sortStable_perm {α : Type} (le : α → α → Bool) (l : List α) :
    (sortStable le l).Perm l := by
  simpa using sortStable_go_perm le l []

theorem sum_nonpos_of_nonpos (l : List ℚ) (h : ∀ x ∈ l, x ≤ 0) :
    l.sum ≤ 0 := by
  induction l with
  | nil => simp
  | cons x xs ih =>
    simp only [List.sum_cons]
    have h1 := h x (by simp)
    have h2 := ih fun y hy => h y (by simp [hy])
    linarith

theorem sum_nonneg_of_nonneg (l : List ℚ) (h : ∀ x ∈ l, 0 ≤ x) :
    0 ≤ l.sum := by
  induction l with
  | nil => simp
  | cons x xs ih =>
    simp only [List.sum_cons]
    have h1 := h x (by simp)
    have h2 := ih fun y hy => h y (by simp [hy])
    linarith

theorem jsAbs_zero : jsAbs 0 = 0 := by norm_num [jsAbs]

/-- The heart of the optimizer proof: over whole-cent balances — every
creditor strictly positive, every debtor strictly negative, grand total
zero — the greedy sweep hands every creditor exactly its balance and makes
every debtor pay exactly its debt, per user. -/
theorem sweepGo_clears : ∀ (n : Nat) (cs ds : List (Nat × ℚ)),
    cs.length + ds.length ≤ n →
    (∀ c ∈ cs, 0 < c.2 ∧ IsCents c.2) →
    (∀ d ∈ ds, d.2 < 0 ∧ IsCents d.2) →
    (cs.map (·.2)).sum + (ds.map (·.2)).sum = 0 →
    (∀ u, recvTotal (sweepGo n cs ds) u = entrySum cs u) ∧
    (∀ u, paidTotal (sweepGo n cs ds) u = - entrySum ds u) := by
  intro n
  induction n with
  | zero =>
    intro cs ds hlen hc hd hsum
    cases cs with
    | cons c cs' => simp at hlen
    | nil =>
      cases ds with
      | cons d ds' => simp at hlen
      | nil =>
        exact ⟨fun u => rfl, fun u => by simp [sweepGo, paidTotal_nil, entrySum_nil]⟩
  | succ m ih =>
    intro cs ds hlen hc hd hsum
    cases cs with
    | nil =>
      have hds : ds = [] := by
        cases ds with
        | nil => rfl
        | cons d ds' =>
          exfalso
          have hd0 := (hd d (by simp)).1
          have hrest : (ds'.map (·.2)).sum ≤ 0 := by
            refine sum_nonpos_of_nonpos _ fun x hx => ?_
            rcases List.mem_map.mp hx with ⟨d', hd', rfl⟩
            exact (hd d' (by simp [hd'])).1.le
          simp only [List.map_nil, List.sum_nil, List.map_cons,
            List.sum_cons, zero_add] at hsum
          linarith
      subst hds
      exact ⟨fun u => rfl, fun u => by simp [sweepGo, paidTotal_nil, entrySum_nil]⟩
    | cons c cs' =>
      cases ds with
      | nil =>
        exfalso
        have hc0 := (hc c (by simp)).1
        have hrest : 0 ≤ (cs'.map (·.2)).sum := by
          refine sum_nonneg_of_nonneg _ fun x hx => ?_
          rcases List.mem_map.mp hx with ⟨c', hc', rfl⟩
          exact (hc c' (by simp [hc'])).1.le
        simp only [List.map_nil, List.sum_nil, List.map_cons,
          List.sum_cons, add_zero] at hsum
        linarith
      | cons d ds' =>
        obtain ⟨cu, cb⟩ := c
        obtain ⟨du, db⟩ := d
        have hcb := hc (cu, cb) (by simp)
        have hdb := hd (du, db) (by simp)
        have hc' : ∀ x ∈ cs', 0 < x.2 ∧ IsCents x.2 :=
          fun x hx => hc x (by simp [hx])
        have hd' : ∀ x ∈ ds', x.2 < 0 ∧ IsCents x.2 :=
          fun x hx => hd x (by simp [hx])
        have habs : jsAbs db = -db := by
          rw [jsAbs, if_pos hdb.1]
        have hsum' : cb + (cs'.map (·.2)).sum + (db + (ds'.map (·.2)).sum)
            = 0 := by
          simpa [add_assoc] using hsum
        have hlen' : cs'.length + ds'.length + 2 ≤ m + 1 := by
          simpa [Nat.succ_eq_add_one, Nat.add_assoc, Nat.add_comm,
            Nat.add_left_comm] using hlen
        rcases le_or_lt cb (-db) with hle | hlt
        · -- the creditor is exhausted: amt = cb
          have hamt : min cb (jsAbs db) = cb := by
            rw [habs]
            exact min_eq_left hle
          by_cases hz : db + cb = 0
          · -- the debtor is exhausted too: both pointers advance
            have hih := ih cs' ds' (by omega) hc' hd' (by linarith)
            simp only [sweepGo, hamt, sub_self, jsAbs_zero,
              if_pos (show (0:ℚ) < 1/100 by norm_num),
              if_pos ((hdb.2.add hcb.2).small_iff_zero.mpr hz)]
            constructor
            · intro u
              rw [recvTotal_cons, hih.1 u, entrySum_cons]
            · intro u
              rw [paidTotal_cons, hih.2 u, entrySum_cons]
              have hdbe : db = -cb := by linarith
              by_cases hdu : (du == u) = true <;> simp [hdu, hdbe] <;> ring
          · -- only the creditor pointer advances
            have hdbcb : db + cb < 0 :=
              lt_of_le_of_ne (by linarith) hz
            have hih := ih cs' ((du, db + cb) :: ds')
              (by simp only [List.length_cons]; omega) hc'
              (by
                intro x hx
                rcases List.mem_cons.mp hx with rfl | hx'
                · exact ⟨hdbcb, hdb.2.add hcb.2⟩
                · exact hd' x hx')
              (by
                simp only [List.map_cons, List.sum_cons]
                linarith)
            simp only [sweepGo, hamt, sub_self, jsAbs_zero,
              if_pos (show (0:ℚ) < 1/100 by norm_num),
              if_neg (fun hsm => hz ((hdb.2.add hcb.2).small_iff_zero.mp hsm))]
            constructor
            · intro u
              rw [recvTotal_cons, hih.1 u, entrySum_cons]
            · intro u
              rw [paidTotal_cons, hih.2 u, entrySum_cons, entrySum_cons]
              by_cases hdu : (du == u) = true <;> simp [hdu] <;> ring
        · -- the debtor is exhausted: amt = -db, only its pointer advances
          have hamt : min cb (jsAbs db) = -db := by
            rw [habs]
            exact min_eq_right hlt.le
          have hcbdb : 0 < cb + db := by linarith
          have hcbdb' : ¬ (cb - -db = 0) := by
            intro h0
            rw [sub_neg_eq_add] at h0
            linarith
          have hih := ih ((cu, cb - -db) :: cs') ds'
            (by simp only [List.length_cons]; omega)
            (by
              intro x hx
              rcases List.mem_cons.mp hx with rfl | hx'
              · refine ⟨?_, hcb.2.sub hdb.2.neg⟩
                rw [sub_neg_eq_add]
                exact hcbdb
              · exact hc' x hx')
            hd'
            (by
              simp only [List.map_cons, List.sum_cons, sub_neg_eq_add]
              linarith)
          simp only [sweepGo, hamt, add_neg_cancel, jsAbs_zero,
            if_pos (show (0:ℚ) < 1/100 by norm_num),
            if_neg (fun hsm =>
              hcbdb' ((hcb.2.sub hdb.2.neg).small_iff_zero.mp hsm))]
          constructor
          · intro u
            rw [recvTotal_cons, hih.1 u, entrySum_cons, entrySum_cons]
            by_cases hcu : (cu == u) = true <;> simp [hcu] <;> ring
          · intro u
            rw [paidTotal_cons, hih.2 u, entrySum_cons]
            by_cases hdu : (du == u) = true <;> simp [hdu] <;> ring

theorem entrySum_map_members (l : List Member) (u : Nat) :
    entrySum (l.map fun m => (m.user, m.balance)) u
      = ((l.filter fun m => m.user == u).map (·.balance)).sum := by
  rw [entrySum, List.filter_map]
  simp [List.map_map, Function.comp_def]

theorem filterSum_of_perm (l₁ l₂ : List Member) (h : l₁.Perm l₂)
    (p : Member → Bool) :
    ((l₁.filter p).map (·.balance)).sum
      = ((l₂.filter p).map (·.balance)).sum :=
  ((h.filter p).map _).sum_eq

theorem filter_perm3 (ms : List Member) (p q r : Member → Bool) :
    ((ms.filter p).filter q).filter r
      = (ms.filter r).filter fun m => q m && p m := by
  rw [List.filter_filter, List.filter_filter, List.filter_filter]
  refine List.filter_congr fun a ha => ?_
  cases q a <;> cases p a <;> cases r a <;> rfl

theorem filter_user_single (ms : List Member)
    (hnodup : (ms.map (·.user)).Nodup) (m : Member) (hm : m ∈ ms) :
    ms.filter (fun x => x.user == m.user) = [m] := by
  induction ms with
  | nil => cases hm
  | cons x xs ih =>
    simp only [List.map_cons, List.nodup_cons] at hnodup
    rcases List.mem_cons.mp hm with rfl | hm'
    · rw [List.filter_cons_of_pos (by simp)]
      have hnil : xs.filter (fun a => a.user == m.user) = [] := by
        refine List.filter_eq_nil.mpr fun a ha => ?_
        simp only [beq_iff_eq]
        intro heq
        exact hnodup.1 (heq ▸ List.mem_map_of_mem _ ha)
      rw [hnil]
    · rw [List.filter_cons_of_neg]
      · exact ih hnodup.2 hm'
      · simp only [beq_iff_eq]
        intro hx
        exact hnodup.1 (hx ▸ List.mem_map_of_mem _ hm')

/-- The user-indexed balance the sweep's input lists carry: sorting is a
permutation, the filters commute, and under distinct users the only entry
for `m.user` is `m` itself (when it passes both filters). -/
theorem entrySum_pipeline (ms : List Member)
    (hnodup : (ms.map (·.user)).Nodup) (m : Member) (hm : m ∈ ms)
    (le : Member → Member → Bool) (p q : Member → Bool) :
    entrySum ((sortStable le ((ms.filter p).filter q)).map
        fun x => (x.user, x.balance)) m.user
      = if (q m && p m) = true then m.balance else 0 := by
  rw [entrySum_map_members,
    filterSum_of_perm _ _ (sortStable_perm le ((ms.filter p).filter q)) _,
    filter_perm3, filter_user_single ms hnodup m hm]
  by_cases h : (q m && p m) = true <;> simp [List.filter_cons, h]

theorem sum_filter_split (l : List Member) (h : ∀ m ∈ l, m.balance ≠ 0) :
    ((l.filter fun m => decide (0 < m.balance)).map (·.balance)).sum
      + ((l.filter fun m => decide (m.balance < 0)).map (·.balance)).sum
      = (l.map (·.balance)).sum := by
  induction l with
  | nil => simp
  | cons x xs ih =>
    have hx := h x (by simp)
    have ihh := ih fun m hm => h m (by simp [hm])
    rcases lt_trichotomy x.balance 0 with hneg | h0 | hpos
    · rw [List.filter_cons_of_neg (by simp [not_lt.mpr hneg.le]),
        List.filter_cons_of_pos (by simp [hneg])]
      simp only [List.map_cons, List.sum_cons]
      linarith
    · exact absurd h0 hx
    · rw [List.filter_cons_of_pos (by simp [hpos]),
        List.filter_cons_of_neg (by simp [not_lt.mpr hpos.le])]
      simp only [List.map_cons, List.sum_cons]
      linarith

theorem sum_filter_tol (ms : List Member)
    (hbig : ∀ m ∈ ms, m.balance ≠ 0 → 1/100 < jsAbs m.balance) :
    ((ms.filter fun m => decide (1/100 < jsAbs m.balance)).map
        (·.balance)).sum
      = (ms.map (·.balance)).sum := by
  induction ms with
  | nil => rfl
  | cons x xs ih =>
    have ihh := ih fun m hm hb => hbig m (by simp [hm]) hb
    by_cases hx : (1:ℚ)/100 < jsAbs x.balance
    · rw [List.filter_cons_of_pos (by simpa using hx)]
      simp only [List.map_cons, List.sum_cons, ihh]
    · have hx0 : x.balance = 0 := by
        by_contra h0
        exact hx (hbig x (by simp) h0)
      rw [List.filter_cons_of_neg (by simpa using hx)]
      simp only [List.map_cons, List.sum_cons, ihh, hx0, zero_add]

theorem tol_ne_zero {m : Member}
    (h : (decide ((1:ℚ)/100 < jsAbs m.balance)) = true) : m.balance ≠ 0 := by
  intro h0
  rw [decide_eq_true_eq, h0, jsAbs_zero] at h
  norm_num at h

/-- Over whole-cent balances with distinct users, a zero grand total, and
every nonzero balance above the `0.01` exclusion threshold, applying the
suggested transfers (payer's balance rises by what they pay, receiver's
falls by what they collect) zeroes every member exactly. -/
theorem suggestSettlements_clears (ms : List Member)
    (hnodup : (ms.map (·.user)).Nodup)
    (hsum : (ms.map (·.balance)).sum = 0)
    (hcents : ∀ m ∈ ms, IsCents m.balance)
    (hbig : ∀ m ∈ ms, m.balance ≠ 0 → 1/100 < jsAbs m.balance) :
    ∀ m ∈ ms, appliedBalance m.balance (suggestSettlements ms) m.user = 0 := by
  intro m hm
  have hc : ∀ c ∈ (sortStable (fun a b => decide (b.balance ≤ a.balance))
      (((ms.filter fun x => decide (1/100 < jsAbs x.balance)).filter
        fun x => decide (0 < x.balance)))).map
          (fun x => (x.user, x.balance)), 0 < c.2 ∧ IsCents c.2 := by
    intro c hcmem
    rcases List.mem_map.mp hcmem with ⟨x, hx, rfl⟩
    have hx2 := (sortStable_perm _ _).mem_iff.mp hx
    rcases List.mem_filter.mp hx2 with ⟨hx3, hxpos⟩
    rcases List.mem_filter.mp hx3 with ⟨hx4, _⟩
    exact ⟨by simpa using hxpos, hcents x hx4⟩
  have hd : ∀ d ∈ (sortStable (fun a b => decide (a.balance ≤ b.balance))
      (((ms.filter fun x => decide (1/100 < jsAbs x.balance)).filter
        fun x => decide (x.balance < 0)))).map
          (fun x => (x.user, x.balance)), d.2 < 0 ∧ IsCents d.2 := by
    intro d hdmem
    rcases List.mem_map.mp hdmem with ⟨x, hx, rfl⟩
    have hx2 := (sortStable_perm _ _).mem_iff.mp hx
    rcases List.mem_filter.mp hx2 with ⟨hx3, hxneg⟩
    rcases List.mem_filter.mp hx3 with ⟨hx4, _⟩
    exact ⟨by simpa using hxneg, hcents x hx4⟩
  have hzero : ∀ x ∈ ms.filter fun x => decide (1/100 < jsAbs x.balance),
      x.balance ≠ 0 := by
    intro x hx
    exact tol_ne_zero (List.mem_filter.mp hx).2
  have hsum' :
      (((sortStable (fun a b => decide (b.balance ≤ a.balance))
        (((ms.filter fun x => decide (1/100 < jsAbs x.balance)).filter
          fun x => decide (0 < x.balance)))).map
            (fun x => (x.user, x.balance))).map (·.2)).sum
      + (((sortStable (fun a b => decide (a.balance ≤ b.balance))
        (((ms.filter fun x => decide (1/100 < jsAbs x.balance)).filter
          fun x => decide (x.balance < 0)))).map
            (fun x => (x.user, x.balance))).map (·.2)).sum = 0 := by
    have h1 : ∀ (le : Member → Member → Bool) (q : Member → Bool),
        (((sortStable le
          ((ms.filter fun x => decide (1/100 < jsAbs x.balance)).filter
            q)).map (fun x => (x.user, x.balance))).map (·.2)).sum
        = (((ms.filter fun x => decide (1/100 < jsAbs x.balance)).filter
            q).map (·.balance)).sum := by
      intro le q
      rw [List.map_map]
      exact ((sortStable_perm le _).map _).sum_eq
    rw [h1, h1, sum_filter_split _ hzero, sum_filter_tol ms hbig, hsum]
  have hmain := sweepGo_clears _ _ _ le_rfl hc hd hsum'
  show appliedBalance m.balance _ m.user = 0
  rw [appliedBalance, suggestSettlements, sweep, hmain.1 m.user,
    hmain.2 m.user, entrySum_pipeline ms hnodup m hm,
    entrySum_pipeline ms hnodup m hm]
  rcases lt_trichotomy m.balance 0 with hneg | h0 | hpos
  · have hq1 : ¬ ((decide (0 < m.balance)
        && decide ((1:ℚ)/100 < jsAbs m.balance)) = true) := by
      rw [Bool.and_eq_true, decide_eq_true_eq, decide_eq_true_eq]
      rintro ⟨h1, -⟩
      exact absurd h1 (not_lt.mpr hneg.le)
    have hq2 : (decide (m.balance < 0)
        && decide ((1:ℚ)/100 < jsAbs m.balance)) = true := by
      rw [Bool.and_eq_true, decide_eq_true_eq, decide_eq_true_eq]
      exact ⟨hneg, hbig m hm (ne_of_lt hneg)⟩
    rw [if_neg hq1, if_pos hq2]
    ring
  · have hq1 : ¬ ((decide (0 < m.balance)
        && decide ((1:ℚ)/100 < jsAbs m.balance)) = true) := by
      rw [Bool.and_eq_true, decide_eq_true_eq, decide_eq_true_eq]
      rintro ⟨h1, -⟩
      rw [h0] at h1
      exact lt_irrefl 0 h1
    have hq2 : ¬ ((decide (m.balance < 0)
        && decide ((1:ℚ)/100 < jsAbs m.balance)) = true) := by
      rw [Bool.and_eq_true, decide_eq_true_eq, decide_eq_true_eq]
      rintro ⟨h1, -⟩
      rw [h0] at h1
      exact lt_irrefl 0 h1
    rw [if_neg hq1, if_neg hq2, h0]
    ring
  · have hq1 : (decide (0 < m.balance)
        && decide ((1:ℚ)/100 < jsAbs m.balance)) = true := by
      rw [Bool.and_eq_true, decide_eq_true_eq, decide_eq_true_eq]
      exact ⟨hpos, hbig m hm (ne_of_gt hpos)⟩
    have hq2 : ¬ ((decide (m.balance < 0)
        && decide ((1:ℚ)/100 < jsAbs m.balance)) = true) := by
      rw [Bool.and_eq_true, decide_eq_true_eq, decide_eq_true_eq]
      rintro ⟨h1, -⟩
      exact absurd h1 (not_lt.mpr hpos.le)
    rw [if_pos hq1, if_neg hq2]
    ring

/-- The spec's concrete scenario: A (user 1) is owed 500, B (user 2) owes
200, C (user 3) owes 300. -/
def c7Members : List Member :=
  [{ user := 1, balance := 500 }, { user := 2, balance := -200 },
   { user := 3, balance := -300 }]

theorem c7Members_suggest_eq :
    suggestSettlements c7Members = [⟨3, 1, 300⟩, ⟨2, 1, 200⟩] := by
  norm_num [suggestSettlements, sweep, sweepGo, sortStable, insertSorted,
    jsAbs, c7Members]

/-- Balances `[0.01, 0.01, -0.02]`: whole cents, sum zero, but the two
one-cent creditors sit exactly at the exclusion threshold. -/
def c7SmallMembers : List Member :=
  [{ user := 1, balance := 1/100 }, { user := 2, balance := 1/100 },
   { user := 3, balance := -1/50 }]

/-- C7 counterexample: the claim says that for every balance list summing
to zero the suggested transfers drive every member within 1 minor unit of
zero.  With balances `[0.01, 0.01, -0.02]` the `> 0.01` filter drops both
creditors, the sweep has nobody to match the debtor against, no transfer
is suggested, and user 3 stays at `-0.02` — two minor units from zero. -/
theorem C7_counterexample :
    (c7SmallMembers.map (·.balance)).sum = 0 ∧
    suggestSettlements c7SmallMembers = [] ∧
    appliedBalance (-1/50) (suggestSettlements c7SmallMembers) 3 = -1/50 ∧
    ¬ |appliedBalance (-1/50) (suggestSettlements c7SmallMembers) 3|
        ≤ 1/100 := by
  have hs : suggestSettlements c7SmallMembers = [] := by
    norm_num [suggestSettlements, sweep, sweepGo, sortStable, insertSorted,
      jsAbs, c7SmallMembers]
  refine ⟨by norm_num [c7SmallMembers], hs, ?_, ?_⟩
  · rw [hs]
    norm_num [appliedBalance, paidTotal, recvTotal]
  · rw [hs]
    norm_num [appliedBalance, paidTotal, recvTotal, abs_le]

/-- C7 amended: the greedy sweep clears balances exactly — not merely to
within one minor unit — provided every balance is a whole number of minor
units, the users are distinct, the total is zero, and every nonzero
balance exceeds the sweep's own `0.01` exclusion threshold (balances at or
below one minor unit are silently dropped, which is what breaks the claim
as stated — see the counterexample).  On the concrete scenario
A:+500/B:-200/C:-300 it emits exactly the two transfers C→A 300 and
B→A 200. -/
theorem C7_greedy_sweep_clears (ms : List Member)
    (hnodup : (ms.map (·.user)).Nodup)
    (hsum : (ms.map (·.balance)).sum = 0)
    (hcents : ∀ m ∈ ms, IsCents m.balance)
    (hbig : ∀ m ∈ ms, m.balance ≠ 0 → 1/100 < jsAbs m.balance) :
    (∀ m ∈ ms, appliedBalance m.balance (suggestSettlements ms) m.user = 0) ∧
    suggestSettlements c7Members = [⟨3, 1, 300⟩, ⟨2, 1, 200⟩] :=
  ⟨suggestSettlements_clears ms hnodup hsum hcents hbig, c7Members_suggest_eq⟩

theorem C7_greedy_sweep_clears_witness :
    appliedBalance 500 (suggestSettlements c7Members) 1 = 0 ∧
    appliedBalance (-200) (suggestSettlements c7Members) 2 = 0 ∧
    appliedBalance (-300) (suggestSettlements c7Members) 3 = 0 ∧
    suggestSettlements c7Members = [⟨3, 1, 300⟩, ⟨2, 1, 200⟩] := by
  have h := C7_greedy_sweep_clears c7Members
    (by decide)
    (by norm_num [c7Members])
    (by
      intro m hm
      rcases List.mem_cons.mp hm with rfl | hm'
      · exact ⟨50000, by norm_num⟩
      rcases List.mem_cons.mp hm' with rfl | hm''
      · exact ⟨-20000, by norm_num⟩
      rcases List.mem_cons.mp hm'' with rfl | hm'''
      · exact ⟨-30000, by norm_num⟩
      · cases hm''')
    (by
      intro m hm hb
      rcases List.mem_cons.mp hm with rfl | hm'
      · norm_num [jsAbs]
      rcases List.mem_cons.mp hm' with rfl | hm''
      · norm_num [jsAbs]
      rcases List.mem_cons.mp hm'' with rfl | hm'''
      · norm_num [jsAbs]
      · cases hm''')
  exact ⟨h.1 { user := 1, balance := 500 } (by simp [c7Members]),
    h.1 { user := 2, balance := -200 } (by simp [c7Members]),
    h.1 { user := 3, balance := -300 } (by simp [c7Members]), h.2⟩

end Zenith
